import Mathlib

/-!
Shallow embedding of the abstract sumcheck protocol core of the binius
repository, together with the bitwise-AND example constraint.

The file first embeds the data model of
`src/crates/core/src/protocols/abstract_sumcheck/abstract_sumcheck.rs`
(`AbstractSumcheckRound`, `AbstractSumcheckProof`,
`AbstractSumcheckRoundClaim`) and the `BitwiseAndConstraint` composition
of `src/examples/bitwise_and_proof.rs`.  The source tree only contains
the trait declarations of the reductor and prover driver; their concrete
behaviour is modelled from the specification, as acknowledged in the
doc comments of the corresponding definitions.
-/

namespace Binius

/-- Monomial-basis coefficients of a round polynomial sent by the prover.
Embeds the struct `AbstractSumcheckRound` (the `coeffs` vector may be
trimmed; which coefficients are missing depends on context). -/
structure AbstractSumcheckRound (F : Type) where
  coeffs : List F
deriving DecidableEq

/-- Embeds the struct `AbstractSumcheckProof`: one round message per round. -/
structure AbstractSumcheckProof (F : Type) where
  rounds : List (AbstractSumcheckRound F)
deriving DecidableEq

/-- Embeds the struct `AbstractSumcheckRoundClaim`: the verifier's belief
state between rounds. -/
structure AbstractSumcheckRoundClaim (F : Type) where
  partial_point : List F
  current_round_sum : F
deriving DecidableEq

/-- Modelled from the spec: the composite polynomial oracle is consumed as an
opaque handle with `n_vars()` used only to validate arity (spec section 6);
the concrete `CompositePolyOracle` type is not under `src/`. -/
structure CompositePolyOracle where
  n_vars : Nat
deriving DecidableEq

/-- Modelled from the spec: the terminal artifact asserting that a named
composite polynomial oracle evaluates to a field value at a point (spec
section 3); the concrete `EvalcheckClaim` type is not under `src/`. -/
structure EvalcheckClaim (F : Type) where
  poly_oracle : CompositePolyOracle
  eval_point : List F
  eval : F
deriving DecidableEq

/-- Modelled from the spec: the error taxonomy of spec section 7 — a
verification failure for a wrong coefficient count, and an arity mismatch
between the final point and the oracle; the concrete `Error` type is not
under `src/`. -/
inductive Error where
  | NumberOfCoefficients : Error
  | IncorrectArity : Error
deriving DecidableEq

/-- Equality of fallible results is decidable whenever it is on both the
error and the value type; lets concrete protocol runs be checked by
evaluation. -/
instance {ε α : Type} [DecidableEq ε] [DecidableEq α] : DecidableEq (Except ε α) :=
  fun a b =>
    match a, b with
    | Except.ok x, Except.ok y => decidable_of_iff (x = y) (by simp)
    | Except.ok _, Except.error _ => isFalse (by simp)
    | Except.error _, Except.ok _ => isFalse (by simp)
    | Except.error x, Except.error y => decidable_of_iff (x = y) (by simp)

/-- Evaluation of a univariate polynomial given by monomial-basis
coefficients (lowest degree first), in Horner form. -/
def evaluate_univariate {F : Type} [Field F] (coeffs : List F) (x : F) : F :=
  coeffs.foldr (fun a acc => a + x * acc) 0

theorem evaluate_univariate_nil {F : Type} [Field F] (x : F) :
    evaluate_univariate [] x = 0 := rfl

theorem evaluate_univariate_cons {F : Type} [Field F] (a : F) (t : List F) (x : F) :
    evaluate_univariate (a :: t) x = a + x * evaluate_univariate t x := rfl

/-- Evaluating at zero returns the constant coefficient. -/
theorem evaluate_univariate_zero {F : Type} [Field F] (coeffs : List F) :
    evaluate_univariate coeffs 0 = coeffs.headD 0 := by
  cases coeffs with
  | nil => rfl
  | cons a t => simp [evaluate_univariate_cons]

/-- Evaluating at one returns the sum of the coefficients. -/
theorem evaluate_univariate_one {F : Type} [Field F] (coeffs : List F) :
    evaluate_univariate coeffs 1 = coeffs.sum := by
  induction coeffs with
  | nil => rfl
  | cons a t ih => simp [evaluate_univariate_cons, ih]

/-- Modelled from the spec: the concrete sumcheck reductor is not under
`src/`.  Spec section 4.2(a) with section 9: the prover omits the leading
coefficient of the round polynomial, and the verifier recovers the unique
value making the identity `r(0) + r(1) = current_round_sum` hold, namely
`a_d = s - a_0 - (a_0 + ... + a_(d-1))`. -/
def reconstruct_coeffs {F : Type} [Field F] (s : F) (coeffs : List F) : List F :=
  coeffs ++ [s - coeffs.headD 0 - coeffs.sum]

/-- The consistency equation of spec section 4.2: the (reconstructed) round
polynomial evaluated at 0 plus at 1 reproduces the claimed sum. -/
def round_message_consistent {F : Type} [Field F] (s : F) (coeffs : List F) : Prop :=
  evaluate_univariate (reconstruct_coeffs s coeffs) 0 +
    evaluate_univariate (reconstruct_coeffs s coeffs) 1 = s

/-- Modelled from the spec: a reductor instantiation (spec section 4.2) for
the plain sumcheck protocol, carrying the degree bound of the round
polynomials; the concrete reductor struct is not under `src/`. -/
structure SumcheckReductor where
  degree : Nat
deriving DecidableEq

/-- Modelled from the spec: the trait method
`AbstractSumcheckReductor::reduce_intermediate_round_claim` is declared in
`src/crates/core/src/protocols/abstract_sumcheck/abstract_sumcheck.rs` but
its implementation is not under `src/`.  Spec section 4.2: check the round
message has the expected coefficient count for the degree bound (the
number of emitted coefficients is `degree`, spec section 4.3, and at least
one coefficient must be present for the recovery rule to apply),
reconstruct the omitted coefficient, evaluate the completed round
polynomial at the challenge, and return the claim with the challenge
appended to `partial_point` and the evaluation as `current_round_sum`. -/
def reduce_intermediate_round_claim {F : Type} [Field F] (reductor : SumcheckReductor)
    (round : Nat) (claim : AbstractSumcheckRoundClaim F) (challenge : F)
    (round_proof : AbstractSumcheckRound F) :
    Except Error (AbstractSumcheckRoundClaim F) :=
  if round_proof.coeffs.length = reductor.degree ∧ round_proof.coeffs.length ≠ 0 then
    Except.ok
      { partial_point := claim.partial_point ++ [challenge]
        current_round_sum :=
          evaluate_univariate
            (reconstruct_coeffs claim.current_round_sum round_proof.coeffs) challenge }
  else
    Except.error Error.NumberOfCoefficients

/-- Modelled from the spec: the trait method
`AbstractSumcheckReductor::reduce_final_round_claim` is declared in
`src/crates/core/src/protocols/abstract_sumcheck/abstract_sumcheck.rs` but
its implementation is not under `src/`.  Spec sections 4.2 and 6: fail
when the oracle's declared arity disagrees with the length of
`partial_point`; otherwise assert that the oracle evaluates to
`current_round_sum` at the fully bound point `partial_point`. -/
def reduce_final_round_claim {F : Type} [Field F] (poly_oracle : CompositePolyOracle)
    (round_claim : AbstractSumcheckRoundClaim F) :
    Except Error (EvalcheckClaim F) :=
  if poly_oracle.n_vars = round_claim.partial_point.length then
    Except.ok
      { poly_oracle := poly_oracle
        eval_point := round_claim.partial_point
        eval := round_claim.current_round_sum }
  else
    Except.error Error.IncorrectArity

/-- A nonempty trimmed coefficient list is always consistent after
reconstruction: the recovered leading coefficient is chosen to force the
identity `r(0) + r(1) = s`. -/
theorem reconstruct_forces_consistency {F : Type} [Field F] (s : F) (coeffs : List F)
    (h : coeffs ≠ []) : round_message_consistent s coeffs := by
  unfold round_message_consistent reconstruct_coeffs
  rw [evaluate_univariate_zero, evaluate_univariate_one]
  cases coeffs with
  | nil => exact absurd rfl h
  | cons a t =>
    simp only [List.cons_append, List.headD_cons, List.sum_append, List.sum_cons,
      List.sum_nil]
    ring

/-- The lower half of a witness evaluation table: the entries where the
variable bound in the current round equals 0. -/
def lower_half {F : Type} (t : List F) : List F :=
  t.take (t.length / 2)

/-- The upper half of a witness evaluation table: the entries where the
variable bound in the current round equals 1. -/
def upper_half {F : Type} (t : List F) : List F :=
  t.drop (t.length / 2)

/-- Modelled from the spec: the prover driver's witness fold (spec section
4.3) — binding the round's variable to the challenge halves the table,
combining each matching pair of entries multilinearly; the concrete prover
implementation is not under `src/`. -/
def fold_table {F : Type} [Field F] (challenge : F) (t : List F) : List F :=
  List.zipWith (fun a b => a + challenge * (b - a)) (lower_half t) (upper_half t)

/-- Modelled from the spec: `execute_round` emits the coefficients of the
round polynomial that are not algebraically recoverable by the verifier
(spec section 4.3).  For the multilinear (degree-one) instantiation the
round polynomial is `r(X) = r(0) + (r(1) - r(0)) X`, with `r(0)` the sum
over the lower half of the table, and only `r(0)` is emitted. -/
def prover_round_message {F : Type} [Field F] (t : List F) : AbstractSumcheckRound F :=
  { coeffs := [(lower_half t).sum] }

/-- The round messages emitted by the prover driver along a challenge
sequence: the message for round `r` is computed from the table folded by
the first `r` challenges (spec section 4.4). -/
def prover_messages {F : Type} [Field F] (t : List F) : List F → List (AbstractSumcheckRound F)
  | [] => []
  | c :: cs => prover_round_message t :: prover_messages (fold_table c t) cs

/-- The witness table after folding by every challenge in order. -/
def final_table {F : Type} [Field F] (t : List F) (cs : List F) : List F :=
  cs.foldl (fun acc c => fold_table c acc) t

/-- Modelled from the spec: `AbstractSumcheckProver::finalize` is declared in
`src/crates/core/src/protocols/abstract_sumcheck/abstract_sumcheck.rs` but
its implementation is not under `src/`.  Spec section 4.3: perform the
final fold and emit the evaluation claim for the fully bound point, whose
value is the single remaining table entry. -/
def prover_finalize {F : Type} [Field F] (poly_oracle : CompositePolyOracle)
    (t : List F) (cs : List F) : EvalcheckClaim F :=
  { poly_oracle := poly_oracle
    eval_point := cs
    eval := (final_table t cs).headD 0 }

/-- Modelled from the spec: the verifier side of the orchestration loop of
spec section 4.4 — fold `reduce_intermediate_round_claim` over the
challenge/message pairs, failing the whole protocol on the first error. -/
def verify_rounds {F : Type} [Field F] (reductor : SumcheckReductor) (round : Nat)
    (claim : AbstractSumcheckRoundClaim F) :
    List (F × AbstractSumcheckRound F) → Except Error (AbstractSumcheckRoundClaim F)
  | [] => Except.ok claim
  | (c, msg) :: rest =>
    match reduce_intermediate_round_claim reductor round claim c msg with
    | Except.ok claim' => verify_rounds reductor (round + 1) claim' rest
    | Except.error e => Except.error e

theorem lower_append_upper {F : Type} (t : List F) :
    lower_half t ++ upper_half t = t :=
  List.take_append_drop _ t

theorem length_lower_half {F : Type} (t : List F) (n : Nat)
    (ht : t.length = 2 ^ (n + 1)) : (lower_half t).length = 2 ^ n := by
  simp [lower_half, ht, pow_succ, Nat.mul_div_cancel]

theorem length_upper_half {F : Type} (t : List F) (n : Nat)
    (ht : t.length = 2 ^ (n + 1)) : (upper_half t).length = 2 ^ n := by
  simp [upper_half, ht, pow_succ, Nat.mul_div_cancel]
  omega

theorem length_fold_table {F : Type} [Field F] (challenge : F) (t : List F) (n : Nat)
    (ht : t.length = 2 ^ (n + 1)) : (fold_table challenge t).length = 2 ^ n := by
  simp [fold_table, length_lower_half t n ht, length_upper_half t n ht]

theorem sum_zipWith_fold {F : Type} [Field F] (c : F) :
    ∀ (l u : List F), l.length = u.length →
    (List.zipWith (fun a b => a + c * (b - a)) l u).sum = l.sum + c * (u.sum - l.sum) := by
  intro l
  induction l with
  | nil =>
    intro u hu
    cases u with
    | nil => simp
    | cons b u => simp at hu
  | cons a l ih =>
    intro u hu
    cases u with
    | nil => simp at hu
    | cons b u =>
      simp only [List.length_cons, Nat.succ_inj] at hu
      simp only [List.zipWith_cons_cons, List.sum_cons, ih u hu]
      ring

/-- The sum of the folded table interpolates between the lower-half and
upper-half sums: it is the round polynomial evaluated at the challenge. -/
theorem sum_fold_table {F : Type} [Field F] (challenge : F) (t : List F) (n : Nat)
    (ht : t.length = 2 ^ (n + 1)) :
    (fold_table challenge t).sum =
      (lower_half t).sum + challenge * ((upper_half t).sum - (lower_half t).sum) := by
  unfold fold_table
  exact sum_zipWith_fold challenge _ _
    ((length_lower_half t n ht).trans (length_upper_half t n ht).symm)

theorem sum_lower_add_upper {F : Type} [Field F] (t : List F) :
    (lower_half t).sum + (upper_half t).sum = t.sum := by
  conv_rhs => rw [← lower_append_upper t]
  rw [List.sum_append]

/-- One honest round passes the reduction and the new running sum is the sum
of the folded table. -/
theorem reduce_honest_round {F : Type} [Field F] (round : Nat) (pp : List F)
    (t : List F) (n : Nat) (ht : t.length = 2 ^ (n + 1)) (challenge : F) :
    reduce_intermediate_round_claim { degree := 1 } round
        { partial_point := pp, current_round_sum := t.sum } challenge
        (prover_round_message t) =
      Except.ok
        { partial_point := pp ++ [challenge]
          current_round_sum := (fold_table challenge t).sum } := by
  have hcond : (prover_round_message (F := F) t).coeffs.length =
      (SumcheckReductor.mk 1).degree ∧
      (prover_round_message (F := F) t).coeffs.length ≠ 0 := by
    constructor <;> simp [prover_round_message]
  rw [reduce_intermediate_round_claim, if_pos hcond]
  have hsum : t.sum = (lower_half t).sum + (upper_half t).sum :=
    (sum_lower_add_upper t).symm
  simp only [prover_round_message, reconstruct_coeffs, List.headD_cons, List.sum_cons,
    List.sum_nil, List.cons_append, List.nil_append, evaluate_univariate_cons,
    evaluate_univariate_nil, sum_fold_table challenge t n ht, Except.ok.injEq,
    AbstractSumcheckRoundClaim.mk.injEq, true_and]
  rw [hsum]
  ring

theorem final_table_cons {F : Type} [Field F] (t : List F) (c : F) (cs : List F) :
    final_table t (c :: cs) = final_table (fold_table c t) cs := rfl

/-- Running the verifier reduction over the honest prover's messages
succeeds and carries the running sum of the folded witness table. -/
theorem verify_rounds_honest {F : Type} [Field F] :
    ∀ (cs : List F) (t : List F), t.length = 2 ^ cs.length →
    ∀ (round : Nat) (pp : List F),
    verify_rounds { degree := 1 } round
        { partial_point := pp, current_round_sum := t.sum }
        (cs.zip (prover_messages t cs)) =
      Except.ok
        { partial_point := pp ++ cs, current_round_sum := (final_table t cs).sum } := by
  intro cs
  induction cs with
  | nil =>
    intro t ht round pp
    simp [verify_rounds, prover_messages, final_table]
  | cons c cs ih =>
    intro t ht round pp
    simp only [List.length_cons] at ht
    rw [prover_messages, List.zip_cons_cons, verify_rounds,
      reduce_honest_round round pp t cs.length ht c, final_table_cons]
    have hstep := ih (fold_table c t) (length_fold_table c t cs.length ht)
      (round + 1) (pp ++ [c])
    rw [List.append_assoc, List.singleton_append] at hstep
    exact hstep

theorem length_final_table {F : Type} [Field F] :
    ∀ (cs : List F) (t : List F), t.length = 2 ^ cs.length →
    (final_table t cs).length = 1 := by
  intro cs
  induction cs with
  | nil => intro t ht; simpa [final_table] using ht
  | cons c cs ih =>
    intro t ht
    simp only [List.length_cons] at ht
    rw [final_table_cons]
    exact ih (fold_table c t) (length_fold_table c t cs.length ht)

theorem sum_eq_headD_of_length_one {F : Type} [Field F] (l : List F)
    (hl : l.length = 1) : l.sum = l.headD 0 := by
  cases l with
  | nil => simp at hl
  | cons a t =>
    simp only [List.length_cons, Nat.succ_inj] at hl
    rw [List.length_eq_zero] at hl
    simp [hl]

/-- The round claims reachable by the verifier: the initial claim has an
empty `partial_point` and the publicly claimed sum, and each successful
`reduce_intermediate_round_claim` step advances the round index by one
(spec sections 3 and 4.4). -/
inductive ReachableClaim {F : Type} [Field F] (reductor : SumcheckReductor) (s₀ : F) :
    Nat → AbstractSumcheckRoundClaim F → Prop where
  | initial : ReachableClaim reductor s₀ 0 ⟨[], s₀⟩
  | step {r : Nat} {claim claim' : AbstractSumcheckRoundClaim F} {challenge : F}
      {msg : AbstractSumcheckRound F} :
      ReachableClaim reductor s₀ r claim →
      reduce_intermediate_round_claim reductor r claim challenge msg =
        Except.ok claim' →
      ReachableClaim reductor s₀ (r + 1) claim'

/-- The transcript operations of the orchestration, as observable events:
absorbing the trace commitment, sampling the zerocheck challenges,
absorbing a round message, and sampling a round challenge
(spec sections 4.4 and 6; `src/examples/bitwise_and_proof.rs`). -/
inductive TranscriptEvent where
  | observe_commitment : TranscriptEvent
  | sample_zerocheck_challenges : TranscriptEvent
  | observe_round_message (round : Nat) : TranscriptEvent
  | sample_challenge (round : Nat) : TranscriptEvent
deriving DecidableEq

/-- The message a sampling event must bind: a round challenge binds that
round's message, the zerocheck challenges bind the trace commitment, and
observations bind nothing. -/
def TranscriptEvent.binds : TranscriptEvent → Option TranscriptEvent
  | TranscriptEvent.sample_challenge r => some (TranscriptEvent.observe_round_message r)
  | TranscriptEvent.sample_zerocheck_challenges => some TranscriptEvent.observe_commitment
  | _ => none

/-- Modelled from the spec: the per-round transcript interaction of the
orchestration loop (spec section 4.4) — each round observes the round
message and then samples that round's challenge; the loop itself
(`full_prove_with_switchover` / `full_verify`) is not under `src/`. -/
def round_trace : Nat → List TranscriptEvent
  | 0 => []
  | n + 1 =>
    round_trace n ++
      [TranscriptEvent.observe_round_message n, TranscriptEvent.sample_challenge n]

/-- The transcript event sequence of the whole orchestration of
`src/examples/bitwise_and_proof.rs`: both `prove` and `verify` first
observe the trace commitment, then sample the zerocheck challenges, then
run the sumcheck rounds. -/
def orchestration_trace (n : Nat) : List TranscriptEvent :=
  TranscriptEvent.observe_commitment ::
    TranscriptEvent.sample_zerocheck_challenges :: round_trace n

/-- The prover driver's protocol states (spec section 4.3): freshly
created, having completed round `r`, or finalized. -/
inductive ProverState where
  | created : ProverState
  | round (r : Nat) : ProverState
  | finalized : ProverState
deriving DecidableEq

/-- Modelled from the spec: the prover-side state machine of spec section
4.3 for an `n`-round proof, `Created → Round 0 → … → Round n-1 →
Finalized`; `execute_round` advances between round states and `finalize`
consumes the driver (the Rust signature `finalize(self, …)` in
`src/crates/core/src/protocols/abstract_sumcheck/abstract_sumcheck.rs`
takes the driver by value), so no transition leaves `finalized`. -/
inductive ProverTransition (n : Nat) : ProverState → ProverState → Prop where
  | execute_first : 0 < n → ProverTransition n ProverState.created (ProverState.round 0)
  | execute_next {r : Nat} : r + 1 < n →
      ProverTransition n (ProverState.round r) (ProverState.round (r + 1))
  | finalize_step : ProverTransition n (ProverState.round (n - 1)) ProverState.finalized

/-- The progress measure of a prover state: transitions strictly increase
it, so the state machine admits no backward transitions. -/
def ProverState.rank (n : Nat) : ProverState → Nat
  | ProverState.created => 0
  | ProverState.round r => r + 1
  | ProverState.finalized => n + 2

/-- Embeds the error enum variant returned by `evaluate_packed` in
`src/examples/bitwise_and_proof.rs` (`PolynomialError::IncorrectQuerySize`). -/
inductive PolynomialError where
  | IncorrectQuerySize (expected : Nat) : PolynomialError
deriving DecidableEq

namespace BitwiseAndConstraint

/-- Embeds `BitwiseAndConstraint::n_vars` of `src/examples/bitwise_and_proof.rs`. -/
def n_vars : Nat := 3

/-- Embeds `BitwiseAndConstraint::degree` of `src/examples/bitwise_and_proof.rs`. -/
def degree : Nat := 2

/-- Embeds `BitwiseAndConstraint::evaluate_packed` of
`src/examples/bitwise_and_proof.rs`: reject queries whose length is not 3,
and otherwise return `a * b - c` for the three query entries. -/
def evaluate_packed {F : Type} [Field F] (query : List F) :
    Except PolynomialError F :=
  if query.length ≠ 3 then
    Except.error (PolynomialError.IncorrectQuerySize 3)
  else
    Except.ok (query.getD 0 0 * query.getD 1 0 - query.getD 2 0)

/-- Embeds `BitwiseAndConstraint::evaluate` of
`src/examples/bitwise_and_proof.rs`, which delegates to `evaluate_packed`. -/
def evaluate {F : Type} [Field F] (query : List F) : Except PolynomialError F :=
  evaluate_packed query

end BitwiseAndConstraint

/-- Helper: the exact shape of a successful intermediate reduction — the
challenge is appended to the partial point and the new running sum is the
reconstructed round polynomial evaluated at the challenge. -/
theorem reduce_intermediate_ok_spec {F : Type} [Field F]
    (reductor : SumcheckReductor) (round : Nat)
    (claim claim' : AbstractSumcheckRoundClaim F) (challenge : F)
    (round_proof : AbstractSumcheckRound F)
    (h : reduce_intermediate_round_claim reductor round claim challenge round_proof =
      Except.ok claim') :
    claim'.partial_point = claim.partial_point ++ [challenge] ∧
      claim'.current_round_sum =
        evaluate_univariate
          (reconstruct_coeffs claim.current_round_sum round_proof.coeffs) challenge := by
  rw [reduce_intermediate_round_claim] at h
  by_cases hc : round_proof.coeffs.length = reductor.degree ∧
      round_proof.coeffs.length ≠ 0
  · rw [if_pos hc] at h
    simp only [Except.ok.injEq] at h
    subst h
    exact ⟨rfl, rfl⟩
  · rw [if_neg hc] at h
    exact absurd h (by simp)

/-- C1: for every round index, prior claim, challenge and round message (and
any reductor instance with a positive degree bound),
`reduce_intermediate_round_claim` returns an error exactly when the
reconstructed round polynomial is inconsistent with the claim's
`current_round_sum` (its evaluation at 0 plus at 1 fails to reproduce it)
or the round message's coefficient count is wrong for the stated degree
bound; in every such case the result is an `Error`, never a silently
adjusted claim. -/
theorem reduce_intermediate_error_iff {F : Type} [Field F]
    (reductor : SumcheckReductor) (hdeg : 1 ≤ reductor.degree) (round : Nat)
    (claim : AbstractSumcheckRoundClaim F) (challenge : F)
    (round_proof : AbstractSumcheckRound F) :
    (∃ e, reduce_intermediate_round_claim reductor round claim challenge round_proof =
        Except.error e) ↔
      (round_proof.coeffs.length ≠ reductor.degree ∨
        ¬ round_message_consistent claim.current_round_sum round_proof.coeffs) := by
  constructor
  · rintro ⟨e, he⟩
    rw [reduce_intermediate_round_claim] at he
    by_cases hc : round_proof.coeffs.length = reductor.degree ∧
        round_proof.coeffs.length ≠ 0
    · rw [if_pos hc] at he
      exact absurd he (by simp)
    · left
      rcases not_and_or.mp hc with h1 | h1
      · exact h1
      · push_neg at h1
        omega
  · intro h
    rw [reduce_intermediate_round_claim]
    by_cases hc : round_proof.coeffs.length = reductor.degree ∧
        round_proof.coeffs.length ≠ 0
    · exfalso
      rcases h with h1 | h1
      · exact h1 hc.1
      · refine h1 (reconstruct_forces_consistency _ _ ?_)
        intro hnil
        exact hc.2 (by simp [hnil])
    · rw [if_neg hc]
      exact ⟨_, rfl⟩

theorem reduce_intermediate_error_iff_witness :
    (1 ≤ (SumcheckReductor.mk 1).degree) ∧
    ((∃ e, reduce_intermediate_round_claim (SumcheckReductor.mk 1) 0
        (AbstractSumcheckRoundClaim.mk ([] : List (ZMod 2)) 0) 0
        (AbstractSumcheckRound.mk []) = Except.error e) ↔
      ((AbstractSumcheckRound.mk ([] : List (ZMod 2))).coeffs.length ≠
          (SumcheckReductor.mk 1).degree ∨
        ¬ round_message_consistent
          (AbstractSumcheckRoundClaim.mk ([] : List (ZMod 2)) 0).current_round_sum
          (AbstractSumcheckRound.mk ([] : List (ZMod 2))).coeffs)) :=
  ⟨by decide,
    reduce_intermediate_error_iff (SumcheckReductor.mk 1) (by decide) 0
      (AbstractSumcheckRoundClaim.mk ([] : List (ZMod 2)) 0) 0
      (AbstractSumcheckRound.mk [])⟩

/-- C2: when `reduce_intermediate_round_claim` succeeds, the returned
claim's `partial_point` is the input claim's with the challenge appended,
and its `current_round_sum` is the reconstructed (now-complete) round
polynomial evaluated at the challenge. -/
theorem reduce_intermediate_success_claim {F : Type} [Field F]
    (reductor : SumcheckReductor) (round : Nat)
    (claim claim' : AbstractSumcheckRoundClaim F) (challenge : F)
    (round_proof : AbstractSumcheckRound F)
    (h : reduce_intermediate_round_claim reductor round claim challenge round_proof =
      Except.ok claim') :
    claim'.partial_point = claim.partial_point ++ [challenge] ∧
      claim'.current_round_sum =
        evaluate_univariate
          (reconstruct_coeffs claim.current_round_sum round_proof.coeffs) challenge :=
  reduce_intermediate_ok_spec reductor round claim claim' challenge round_proof h

theorem reduce_intermediate_success_claim_witness :
    (reduce_intermediate_round_claim (SumcheckReductor.mk 1) 0
        (AbstractSumcheckRoundClaim.mk ([] : List (ZMod 2)) 0) 1
        (AbstractSumcheckRound.mk [1]) =
      Except.ok (AbstractSumcheckRoundClaim.mk [1] 1)) ∧
    ((AbstractSumcheckRoundClaim.mk ([1] : List (ZMod 2)) 1).partial_point =
        (AbstractSumcheckRoundClaim.mk ([] : List (ZMod 2)) 0).partial_point ++ [1] ∧
      (AbstractSumcheckRoundClaim.mk ([1] : List (ZMod 2)) 1).current_round_sum =
        evaluate_univariate
          (reconstruct_coeffs
            (AbstractSumcheckRoundClaim.mk ([] : List (ZMod 2)) 0).current_round_sum
            (AbstractSumcheckRound.mk ([1] : List (ZMod 2))).coeffs) 1) :=
  ⟨by decide,
    reduce_intermediate_success_claim (SumcheckReductor.mk 1) 0
      (AbstractSumcheckRoundClaim.mk ([] : List (ZMod 2)) 0)
      (AbstractSumcheckRoundClaim.mk [1] 1) 1
      (AbstractSumcheckRound.mk [1]) (by decide)⟩

/-- C3: completeness — for every witness table consistent with the public
claim and every challenge sequence fed identically to both sides, the
verifier reduction of every round and the final reduction succeed, and the
evaluation value of the verifier's `reduce_final_round_claim` output
equals the evaluation value of the prover's `finalize` output. -/
theorem sumcheck_completeness {F : Type} [Field F] (n : Nat) (t : List F)
    (ht : t.length = 2 ^ n) (cs : List F) (hcs : cs.length = n)
    (poly_oracle : CompositePolyOracle) (harity : poly_oracle.n_vars = n) (s : F)
    (hs : s = t.sum) :
    ∃ final_claim : AbstractSumcheckRoundClaim F,
      verify_rounds (SumcheckReductor.mk 1) 0
          (AbstractSumcheckRoundClaim.mk [] s) (cs.zip (prover_messages t cs)) =
        Except.ok final_claim ∧
      ∃ ec : EvalcheckClaim F,
        reduce_final_round_claim poly_oracle final_claim = Except.ok ec ∧
        ec.eval = (prover_finalize poly_oracle t cs).eval := by
  subst hs
  subst hcs
  refine ⟨AbstractSumcheckRoundClaim.mk cs (final_table t cs).sum, ?_, ?_⟩
  · have h := verify_rounds_honest cs t ht 0 []
    rw [List.nil_append] at h
    exact h
  · refine ⟨EvalcheckClaim.mk poly_oracle cs (final_table t cs).sum, ?_, ?_⟩
    · rw [reduce_final_round_claim, if_pos harity]
    · show (final_table t cs).sum = (prover_finalize poly_oracle t cs).eval
      rw [prover_finalize]
      exact sum_eq_headD_of_length_one _ (length_final_table cs t ht)

theorem sumcheck_completeness_witness :
    (([1, 0] : List (ZMod 2)).length = 2 ^ 1 ∧ ([0] : List (ZMod 2)).length = 1 ∧
      (CompositePolyOracle.mk 1).n_vars = 1 ∧
      (1 : ZMod 2) = ([1, 0] : List (ZMod 2)).sum) ∧
    (∃ final_claim : AbstractSumcheckRoundClaim (ZMod 2),
      verify_rounds (SumcheckReductor.mk 1) 0
          (AbstractSumcheckRoundClaim.mk [] 1)
          (([0] : List (ZMod 2)).zip (prover_messages [1, 0] [0])) =
        Except.ok final_claim ∧
      ∃ ec : EvalcheckClaim (ZMod 2),
        reduce_final_round_claim (CompositePolyOracle.mk 1) final_claim =
          Except.ok ec ∧
        ec.eval = (prover_finalize (CompositePolyOracle.mk 1) [1, 0] [0]).eval) :=
  ⟨⟨by decide, by decide, by decide, by decide⟩,
    sumcheck_completeness 1 [1, 0] (by decide) [0] (by decide)
      (CompositePolyOracle.mk 1) (by decide) 1 (by decide)⟩

/-- C4: round-claim invariant — every claim reachable from the initial
claim (empty `partial_point`) by `r` successful
`reduce_intermediate_round_claim` steps has `partial_point.length = r`,
since each reduction step appends exactly one challenge. -/
theorem reachable_partial_point_length {F : Type} [Field F]
    (reductor : SumcheckReductor) (s₀ : F) (r : Nat)
    (claim : AbstractSumcheckRoundClaim F)
    (h : ReachableClaim reductor s₀ r claim) :
    claim.partial_point.length = r := by
  induction h with
  | initial => rfl
  | step hre hred ih =>
    rcases reduce_intermediate_ok_spec _ _ _ _ _ _ hred with ⟨hp, _⟩
    rw [hp, List.length_append, ih]
    rfl

theorem reachable_partial_point_length_witness :
    (AbstractSumcheckRoundClaim.mk ([0] : List (ZMod 2)) 0).partial_point.length = 1 :=
  reachable_partial_point_length (SumcheckReductor.mk 1) (0 : ZMod 2) 1
    (AbstractSumcheckRoundClaim.mk [0] 0)
    (@ReachableClaim.step (ZMod 2) _ (SumcheckReductor.mk 1) 0 0
      (AbstractSumcheckRoundClaim.mk [] 0) (AbstractSumcheckRoundClaim.mk [0] 0)
      0 (AbstractSumcheckRound.mk [0]) ReachableClaim.initial (by decide))

/-- C5: `reduce_final_round_claim` errors exactly when the oracle's
declared number of variables differs from the length of `partial_point`;
on success the returned `EvalcheckClaim` asserts that the oracle evaluates
to the claim's `current_round_sum` at the point `partial_point`. -/
theorem reduce_final_round_claim_spec {F : Type} [Field F]
    (poly_oracle : CompositePolyOracle)
    (round_claim : AbstractSumcheckRoundClaim F) :
    ((∃ e, reduce_final_round_claim poly_oracle round_claim = Except.error e) ↔
      poly_oracle.n_vars ≠ round_claim.partial_point.length) ∧
    (∀ ec, reduce_final_round_claim poly_oracle round_claim = Except.ok ec →
      ec.poly_oracle = poly_oracle ∧ ec.eval_point = round_claim.partial_point ∧
        ec.eval = round_claim.current_round_sum) := by
  rw [reduce_final_round_claim]
  by_cases h : poly_oracle.n_vars = round_claim.partial_point.length
  · rw [if_pos h]
    refine ⟨by simp [h], ?_⟩
    intro ec hec
    simp only [Except.ok.injEq] at hec
    subst hec
    exact ⟨rfl, rfl, rfl⟩
  · rw [if_neg h]
    refine ⟨by simp [h], ?_⟩
    intro ec hec
    exact absurd hec (by simp)

theorem reduce_final_round_claim_spec_witness :
    ((∃ e, reduce_final_round_claim (CompositePolyOracle.mk 1)
        (AbstractSumcheckRoundClaim.mk ([0] : List (ZMod 2)) 1) = Except.error e) ↔
      (CompositePolyOracle.mk 1).n_vars ≠
        (AbstractSumcheckRoundClaim.mk ([0] : List (ZMod 2)) 1).partial_point.length) ∧
    (∀ ec, reduce_final_round_claim (CompositePolyOracle.mk 1)
        (AbstractSumcheckRoundClaim.mk ([0] : List (ZMod 2)) 1) = Except.ok ec →
      ec.poly_oracle = CompositePolyOracle.mk 1 ∧
        ec.eval_point =
          (AbstractSumcheckRoundClaim.mk ([0] : List (ZMod 2)) 1).partial_point ∧
        ec.eval =
          (AbstractSumcheckRoundClaim.mk ([0] : List (ZMod 2)) 1).current_round_sum) :=
  reduce_final_round_claim_spec (CompositePolyOracle.mk 1)
    (AbstractSumcheckRoundClaim.mk [0] 1)

/-- C6: determinism of reduction — the result of
`reduce_intermediate_round_claim` depends only on the values of the
reductor, round index, claim, challenge and round message: two calls with
equal inputs return identical results (the operation is a pure function
with no hidden mutable state). -/
theorem reduce_intermediate_deterministic {F : Type} [Field F]
    (r1 r2 : SumcheckReductor) (round1 round2 : Nat)
    (claim1 claim2 : AbstractSumcheckRoundClaim F) (ch1 ch2 : F)
    (msg1 msg2 : AbstractSumcheckRound F)
    (h1 : r1 = r2) (h2 : round1 = round2) (h3 : claim1 = claim2) (h4 : ch1 = ch2)
    (h5 : msg1 = msg2) :
    reduce_intermediate_round_claim r1 round1 claim1 ch1 msg1 =
      reduce_intermediate_round_claim r2 round2 claim2 ch2 msg2 := by
  subst h1
  subst h2
  subst h3
  subst h4
  subst h5
  rfl

theorem reduce_intermediate_deterministic_witness :
    reduce_intermediate_round_claim (SumcheckReductor.mk 1) 0
        (AbstractSumcheckRoundClaim.mk ([] : List (ZMod 2)) 0) 1
        (AbstractSumcheckRound.mk [1]) =
      reduce_intermediate_round_claim (SumcheckReductor.mk 1) 0
        (AbstractSumcheckRoundClaim.mk ([] : List (ZMod 2)) 0) 1
        (AbstractSumcheckRound.mk [1]) :=
  reduce_intermediate_deterministic (SumcheckReductor.mk 1) (SumcheckReductor.mk 1)
    0 0 (AbstractSumcheckRoundClaim.mk [] 0) (AbstractSumcheckRoundClaim.mk [] 0)
    1 1 (AbstractSumcheckRound.mk [1]) (AbstractSumcheckRound.mk [1])
    rfl rfl rfl rfl rfl

/-- Helper for C7: within the per-round trace, every sampling event is
preceded by the observation it binds. -/
theorem round_trace_order (n : Nat) : ∀ (j : Nat) (e o : TranscriptEvent),
    (round_trace n)[j]? = some e → TranscriptEvent.binds e = some o →
    ∃ i, i < j ∧ (round_trace n)[i]? = some o := by
  induction n with
  | zero =>
    intro j e o hj hb
    simp [round_trace] at hj
  | succ n ih =>
    intro j e o hj hb
    rw [round_trace] at hj
    by_cases hlt : j < (round_trace n).length
    · rw [List.getElem?_append_left hlt] at hj
      obtain ⟨i, hi, ho⟩ := ih j e o hj hb
      refine ⟨i, hi, ?_⟩
      rw [round_trace, List.getElem?_append_left (lt_trans hi hlt), ho]
    · push_neg at hlt
      rw [List.getElem?_append_right hlt] at hj
      rcases hk : j - (round_trace n).length with _ | _ | k
      · rw [hk] at hj
        simp only [List.getElem?_cons_zero, Option.some.injEq] at hj
        subst hj
        simp [TranscriptEvent.binds] at hb
      · rw [hk] at hj
        simp only [List.getElem?_cons_succ, List.getElem?_cons_zero,
          Option.some.injEq] at hj
        subst hj
        simp only [TranscriptEvent.binds, Option.some.injEq] at hb
        subst hb
        refine ⟨(round_trace n).length, by omega, ?_⟩
        rw [round_trace, List.getElem?_append_right (le_refl _), Nat.sub_self]
        rfl
      · rw [hk] at hj
        simp at hj

/-- C7: Fiat-Shamir ordering — in the orchestration's transcript event
sequence, every sampling operation is preceded by the observe operation
of the message it must bind: each round's challenge is sampled only after
that round's message has been observed, and the zerocheck challenges only
after the trace commitment. -/
theorem fiat_shamir_observe_before_sample (n j : Nat) (e o : TranscriptEvent)
    (hj : (orchestration_trace n)[j]? = some e)
    (hb : TranscriptEvent.binds e = some o) :
    ∃ i, i < j ∧ (orchestration_trace n)[i]? = some o := by
  rcases j with _ | _ | j
  · simp only [orchestration_trace, List.getElem?_cons_zero, Option.some.injEq] at hj
    subst hj
    simp [TranscriptEvent.binds] at hb
  · simp only [orchestration_trace, List.getElem?_cons_succ,
      List.getElem?_cons_zero, Option.some.injEq] at hj
    subst hj
    simp only [TranscriptEvent.binds, Option.some.injEq] at hb
    subst hb
    exact ⟨0, by omega, rfl⟩
  · simp only [orchestration_trace, List.getElem?_cons_succ] at hj
    obtain ⟨i, hi, ho⟩ := round_trace_order n j e o hj hb
    refine ⟨i + 2, by omega, ?_⟩
    simpa [orchestration_trace, List.getElem?_cons_succ] using ho

theorem fiat_shamir_observe_before_sample_witness :
    ((orchestration_trace 1)[3]? = some (TranscriptEvent.sample_challenge 0) ∧
      TranscriptEvent.binds (TranscriptEvent.sample_challenge 0) =
        some (TranscriptEvent.observe_round_message 0)) ∧
    (∃ i, i < 3 ∧
      (orchestration_trace 1)[i]? = some (TranscriptEvent.observe_round_message 0)) :=
  ⟨⟨by decide, by decide⟩,
    fiat_shamir_observe_before_sample 1 3 (TranscriptEvent.sample_challenge 0)
      (TranscriptEvent.observe_round_message 0) (by decide) (by decide)⟩

/-- C8: terminal finalize — the prover state machine admits no transition
out of the `finalized` state (use-after-finalize is unrepresentable), and
no backward transitions: every transition strictly increases the progress
rank of the state. -/
theorem prover_finalize_terminal (n : Nat) :
    (∀ s, ¬ ProverTransition n ProverState.finalized s) ∧
    (∀ s s', ProverTransition n s s' →
      ProverState.rank n s < ProverState.rank n s') := by
  constructor
  · intro s h
    cases h
  · intro s s' h
    cases h with
    | execute_first h => simp [ProverState.rank]
    | execute_next h => simp [ProverState.rank]
    | finalize_step =>
      show n - 1 + 1 < n + 2
      omega

theorem prover_finalize_terminal_witness :
    ¬ ProverTransition 2 ProverState.finalized ProverState.created :=
  (prover_finalize_terminal 2).1 ProverState.created

/-- C9: total construction of rounds — every coefficient sequence yields an
`AbstractSumcheckRound` carrying exactly those coefficients (construction
never fails and performs no validation), and a round carries nothing but
its coefficient sequence. -/
theorem round_construction_total {F : Type} (coeffs : List F) :
    (AbstractSumcheckRound.mk coeffs).coeffs = coeffs ∧
      ∀ r : AbstractSumcheckRound F, r = AbstractSumcheckRound.mk r.coeffs :=
  ⟨rfl, fun _ => rfl⟩

/-- C10: `evaluate_packed` returns the `IncorrectQuerySize` error exactly
when the query length differs from 3, otherwise returns
`Ok (query[0] * query[1] - query[2])`, and `evaluate` returns exactly the
same result as `evaluate_packed` on every query. -/
theorem bitwise_and_evaluate_spec {F : Type} [Field F] (query : List F) :
    (BitwiseAndConstraint.evaluate_packed query =
        Except.error (PolynomialError.IncorrectQuerySize 3) ↔ query.length ≠ 3) ∧
    (query.length = 3 →
      BitwiseAndConstraint.evaluate_packed query =
        Except.ok (query.getD 0 0 * query.getD 1 0 - query.getD 2 0)) ∧
    BitwiseAndConstraint.evaluate query = BitwiseAndConstraint.evaluate_packed query := by
  refine ⟨?_, ?_, rfl⟩
  · by_cases h : query.length = 3 <;>
      simp [BitwiseAndConstraint.evaluate_packed, h]
  · intro h
    simp [BitwiseAndConstraint.evaluate_packed, h]

theorem bitwise_and_evaluate_spec_witness :
    (BitwiseAndConstraint.evaluate_packed ([1, 1, 0] : List (ZMod 2)) =
        Except.error (PolynomialError.IncorrectQuerySize 3) ↔
      ([1, 1, 0] : List (ZMod 2)).length ≠ 3) ∧
    (([1, 1, 0] : List (ZMod 2)).length = 3 →
      BitwiseAndConstraint.evaluate_packed ([1, 1, 0] : List (ZMod 2)) =
        Except.ok (([1, 1, 0] : List (ZMod 2)).getD 0 0 *
          ([1, 1, 0] : List (ZMod 2)).getD 1 0 -
          ([1, 1, 0] : List (ZMod 2)).getD 2 0)) ∧
    BitwiseAndConstraint.evaluate ([1, 1, 0] : List (ZMod 2)) =
      BitwiseAndConstraint.evaluate_packed ([1, 1, 0] : List (ZMod 2)) :=
  bitwise_and_evaluate_spec ([1, 1, 0] : List (ZMod 2))

end Binius
